import Mathlib

/-!
Shallow embedding of the core of the g0 HTTP load tester
(github.com/calummacc/g0) and proofs about it.

Conventions used throughout:
* Go `time.Duration` (an `int64` count of nanoseconds) is modelled as `Int`;
  the claims under study do not hinge on 64-bit wraparound, so machine
  overflow is not modelled.
* Go `error` values are modelled as `Option String` (`none` = `nil`).
* The Go map `map[int]int64` behind `StatusCodeCounts` is modelled as an
  association list `List (Int × Int)`; `mapIncr` models `m[k]++` (which in Go
  inserts the key with value 1 when absent).
* Real-valued arithmetic prescribed by the spec (percentile interpolation,
  requests-per-second) is carried out exactly over `ℚ`.
* Go integer division (`/` on `int64`, truncation toward zero) is `Int.tdiv`.
-/

/-- `Result` from internal/runner/stats.go: one request observation. -/
structure Result where
  Latency : Int
  StatusCode : Int
  Error : Option String
deriving DecidableEq

/-- Model of `m[k]++` on a Go `map[int]int64` represented as an association
list: increment the value of an existing key, otherwise insert the key with
value 1. -/
def mapIncr : List (Int × Int) → Int → List (Int × Int)
  | [], k => [(k, 1)]
  | (k', v) :: rest, k =>
    if k' = k then (k', v + 1) :: rest else (k', v) :: mapIncr rest k

/-- Sum of all values of the status-code histogram. -/
def mapSum : List (Int × Int) → Int
  | [] => 0
  | kv :: rest => kv.2 + mapSum rest

/-- Lookup in the histogram, with the Go map's zero default for absent keys. -/
def mapGet : List (Int × Int) → Int → Int
  | [], _ => 0
  | (k', v) :: rest, k => if k' = k then v else mapGet rest k

/-- Every value stored in the histogram is non-negative. -/
def mapNonneg (m : List (Int × Int)) : Prop := ∀ kv ∈ m, 0 ≤ kv.2

instance (m : List (Int × Int)) : Decidable (mapNonneg m) :=
  inferInstanceAs (Decidable (∀ kv ∈ m, 0 ≤ kv.2))

/-- `Stats` from internal/runner/stats.go (the `sync.RWMutex` guards the Go
struct against concurrent access and carries no data; the sequential state is
everything else). -/
structure Stats where
  TotalRequests : Int
  SuccessRequests : Int
  FailedRequests : Int
  StatusCodeCounts : List (Int × Int)
  Latencies : List Int
  StartTime : Int
  EndTime : Int
deriving DecidableEq

/-- `NewStats` from stats.go; `now` stands for the `time.Now()` call. -/
def NewStats (now : Int) : Stats :=
  { TotalRequests := 0, SuccessRequests := 0, FailedRequests := 0,
    StatusCodeCounts := [], Latencies := [], StartTime := now, EndTime := 0 }

/-- `Stats.AddResult` from stats.go: bump the total, retain the latency,
classify the result as success or failure, and record the status code
(0 sentinel for network errors; nothing recorded when the code is 0 with a
nil error or when the code is negative). -/
def Stats.AddResult (s : Stats) (result : Result) : Stats :=
  { s with
    TotalRequests := s.TotalRequests + 1
    Latencies := s.Latencies ++ [result.Latency]
    FailedRequests :=
      if result.Error.isSome ∨ 400 ≤ result.StatusCode then
        s.FailedRequests + 1
      else
        s.FailedRequests
    SuccessRequests :=
      if result.Error.isSome ∨ 400 ≤ result.StatusCode then
        s.SuccessRequests
      else
        s.SuccessRequests + 1
    StatusCodeCounts :=
      if result.Error.isSome ∧ result.StatusCode = 0 then
        mapIncr s.StatusCodeCounts 0
      else if 0 < result.StatusCode then
        mapIncr s.StatusCodeCounts result.StatusCode
      else
        s.StatusCodeCounts }

/-- `Stats.Finalize` from stats.go; `now` stands for the `time.Now()` call. -/
def Stats.Finalize (s : Stats) (now : Int) : Stats := { s with EndTime := now }

/-- The ascending sort performed on the latency collection before the
percentile computation. -/
def sortLat (l : List Int) : List Int := List.insertionSort (· ≤ ·) l

/-- Value at a (rational) index of a sorted sample: take the floor position,
and use the fractional part of the index to interpolate linearly toward the
next sample (clamped to the last position). -/
def interpVal (s : List Int) (index : ℚ) : ℚ :=
  ((s.getD (⌊index⌋).toNat 0 : Int) : ℚ)
    + (index - ((⌊index⌋).toNat : ℚ))
      * (((s.getD (min ((⌊index⌋).toNat + 1) (s.length - 1)) 0 : Int) : ℚ)
          - ((s.getD (⌊index⌋).toNat 0 : Int) : ℚ))

/-- Modelled from the spec: internal/runner/percentiles.go is not among the
provided source files (only its call sites in stats.go are), so `Percentile`
is modelled from §4.4 of the design: sort the full latency collection, place
the percentile-p value at index `p/100 * (n-1)`, and use the fractional
portion of that index to linearly blend the two bracketing sorted samples.
The arithmetic is carried out exactly over `ℚ`. -/
def Percentile (latencies : List Int) (p : ℚ) : ℚ :=
  match latencies with
  | [] => 0
  | _ :: _ =>
    interpVal (sortLat latencies) (p / 100 * ((latencies.length : ℚ) - 1))

/-- Reference definition, following the spec's words for the standard
linear-interpolation percentile method: for a sorted sample `s` of size `n`,
the percentile-p value sits at index `i = p/100 * (n-1)`, and the fractional
portion of `i` linearly blends the two bracketing sorted samples `s⌊i⌋` and
`s⌈i⌉`. -/
def refPercentile (latencies : List Int) (p : ℚ) : ℚ :=
  match latencies with
  | [] => 0
  | _ :: _ =>
    (1 - Int.fract (p / 100 * (((sortLat latencies).length : ℚ) - 1)))
        * (((sortLat latencies).getD
            (⌊p / 100 * (((sortLat latencies).length : ℚ) - 1)⌋).toNat 0 : Int) : ℚ)
      + Int.fract (p / 100 * (((sortLat latencies).length : ℚ) - 1))
        * (((sortLat latencies).getD
            (⌈p / 100 * (((sortLat latencies).length : ℚ) - 1)⌉).toNat 0 : Int) : ℚ)

/-- One step of the running-minimum loop in `GetSummary`
(`if lat < min { min = lat }`). -/
def goMin (m lat : Int) : Int := if lat < m then lat else m

/-- One step of the running-maximum loop in `GetSummary`
(`if lat > max { max = lat }`). -/
def goMax (m lat : Int) : Int := if m < lat then lat else m

/-- `Summary` from stats.go. Latency percentiles and RPS are the exact
rational values of the spec's real-valued formulas; the remaining latency
fields are the `int64` nanosecond counts the code computes. Unset fields
default to Go's zero values. -/
structure Summary where
  TotalRequests : Int
  SuccessRequests : Int
  FailedRequests : Int
  StatusCodeCounts : List (Int × Int)
  MinLatency : Int := 0
  MaxLatency : Int := 0
  AvgLatency : Int := 0
  P90Latency : ℚ := 0
  P95Latency : ℚ := 0
  P99Latency : ℚ := 0
  RPS : ℚ := 0
  Duration : Int := 0
deriving DecidableEq

/-- `Stats.GetSummary` from stats.go: an empty latency collection yields a
summary holding only the counters; otherwise min/max/sum come from one linear
scan initialised with `Latencies[0]`, the average is the truncated integer
division `sum / len`, the percentiles come from `Percentile`, and RPS is
`total / duration-in-seconds` guarded against a non-positive duration. -/
def Stats.GetSummary (s : Stats) : Summary :=
  if s.Latencies.length = 0 then
    { TotalRequests := s.TotalRequests
      SuccessRequests := s.SuccessRequests
      FailedRequests := s.FailedRequests
      StatusCodeCounts := s.StatusCodeCounts }
  else
    { TotalRequests := s.TotalRequests
      SuccessRequests := s.SuccessRequests
      FailedRequests := s.FailedRequests
      StatusCodeCounts := s.StatusCodeCounts
      MinLatency := s.Latencies.foldl goMin (s.Latencies.getD 0 0)
      MaxLatency := s.Latencies.foldl goMax (s.Latencies.getD 0 0)
      AvgLatency := (s.Latencies.foldl (· + ·) 0).tdiv (s.Latencies.length : Int)
      P90Latency := Percentile s.Latencies 90
      P95Latency := Percentile s.Latencies 95
      P99Latency := Percentile s.Latencies 99
      RPS :=
        if 0 < s.EndTime - s.StartTime then
          (s.TotalRequests : ℚ) * 1000000000 / ((s.EndTime - s.StartTime : Int) : ℚ)
        else 0
      Duration := s.EndTime - s.StartTime }

/-- `URLRotator` from internal/runner/urlrotator.go. The Go index is an
`int64` that starts at 0 and is only ever incremented; it is modelled as a
`Nat` (wraparound would need 2^63 calls and is not modelled). -/
structure URLRotator where
  urls : List String
  idx : Nat
deriving DecidableEq

/-- `NewURLRotator` from urlrotator.go: `nil` (here `none`) for an empty
list, otherwise a rotator starting at index 0. -/
def NewURLRotator (urls : List String) : Option URLRotator :=
  if urls.length = 0 then none
  else some { urls := urls, idx := 0 }

/-- `URLRotator.Next` from urlrotator.go: empty string for an empty list, the
single element for a one-element list (no index update), otherwise an atomic
post-increment of the index and the element at the old index modulo the list
length. Returns the updated rotator together with the selected URL. -/
def URLRotator.Next (r : URLRotator) : URLRotator × String :=
  if r.urls.length = 0 then (r, "")
  else if r.urls.length = 1 then (r, r.urls.getD 0 "")
  else
    ({ r with idx := r.idx + 1 }, r.urls.getD (r.idx % r.urls.length) "")

/-- `n` successive sequential (non-overlapping) calls to `Next`, returning
the final rotator state and the list of returned URLs in call order. -/
def runNext (r : URLRotator) : Nat → URLRotator × List String
  | 0 => (r, [])
  | Nat.succ n =>
    let step := r.Next
    let rest := runNext step.1 n
    (rest.1, step.2 :: rest.2)

/-- `Config` from internal/runner/runner.go. -/
structure Config where
  URLs : List String
  Concurrency : Int
  Duration : Int
  Method : String
  Body : String
  Headers : List (String × String)
  MaxRPS : Int
deriving DecidableEq

/-- How a call to the orchestrator can end: an error return, a runtime
fault (a Go panic, which produces no return value at all), or a normal
return carrying the summary. -/
inductive RunOutcome where
  | err (msg : String)
  | fault (msg : String)
  | ok (summary : Summary)
deriving DecidableEq

/-- `true` exactly on a normal `ok` return. -/
def runOk : RunOutcome → Bool
  | RunOutcome.ok _ => true
  | _ => false

/-- `RunWithStatsAndChannel` from runner.go, sequentialised: `delivered`
abstracts the stream of results the workers put on the results channel during
the run (in the order the collector consumes them), and `t0`/`t1` stand for
the collector's creation and finalisation times. The function validates the
URL list up front — its only error return; next, `make(chan Result,
config.Concurrency*10)` at runner.go:62 panics at run time when the buffer
size is negative, i.e. (`int64` overflow aside) exactly when `Concurrency`
is negative — modelled as the `fault` outcome; otherwise the run aggregates
every delivered result, finalises, and returns the summary. -/
def RunWithStatsAndChannel (config : Config) (delivered : List Result)
    (t0 t1 : Int) : RunOutcome :=
  if config.URLs.length = 0 then
    RunOutcome.err "at least one URL is required"
  else if config.Concurrency < 0 then
    RunOutcome.fault "makechan: size out of range"
  else
    RunOutcome.ok (((delivered.foldl Stats.AddResult (NewStats t0)).Finalize t1).GetSummary)

/-- Number of worker goroutines `RunWithStatsAndChannel` launches: none when
validation fails or when the channel allocation faults (both happen before
the worker loop), otherwise the `for i := 0; i < config.Concurrency; i++`
loop body runs `config.Concurrency.toNat` times (zero times for concurrency
zero; for negative concurrency `toNat` is also zero, matching the fault
occurring before any worker starts). -/
def workersStarted (config : Config) : Nat :=
  if config.URLs.length = 0 then 0 else config.Concurrency.toNat

/-- Outcome of the worker's post-request delivery step. -/
inductive DeliveryOutcome where
  | sent
  | aborted
deriving DecidableEq

/-- Go `select` semantics of the delivery step at worker.go lines 67-77:
the worker selects between receiving from `ctx.Done()` (ready exactly when
the shared cancellation has fired) and sending the result on the buffered
results channel (ready exactly when the send can proceed immediately). A
`select` with several ready communications makes a uniform pseudo-random
choice among them, modelled here as nondeterminism: when both are ready,
both outcomes are possible. With no ready communication the select blocks
and no outcome is produced yet. -/
inductive deliveryStep : Bool → Bool → DeliveryOutcome → Prop where
  | abortOnDone (sendReady : Bool) : deliveryStep true sendReady DeliveryOutcome.aborted
  | sendOnReady (ctxDone : Bool) : deliveryStep ctxDone true DeliveryOutcome.sent

/-- `Request` from internal/httpclient/client.go (the cancellation context is
not part of the sequential data model). -/
structure Request where
  Method : String
  URL : String
  Body : String
  Headers : List (String × String)
deriving DecidableEq

/-- `Response` from internal/httpclient/client.go. -/
structure Response where
  StatusCode : Int
  Latency : Int
  Error : Option String
deriving DecidableEq

/-- Outcome of the two fallible external calls inside `Client.Do`:
`http.NewRequestWithContext` may fail, `httpClient.Do` may fail, or a
`*http.Response` with some status code is received. -/
inductive TransportOutcome where
  | reqError (e : String)
  | netError (e : String)
  | success (statusCode : Int)
deriving DecidableEq

/-- `Client.Do` from client.go as a function of the transport outcome: each
of the three return sites pairs the status code with the error exactly as the
source does (`lat` stands for the measured `time.Since(start)`). -/
def Httpclient.Do (req : Request) (outcome : TransportOutcome) (lat : Int) :
    Response :=
  match outcome with
  | TransportOutcome.reqError e => { StatusCode := 0, Latency := lat, Error := some e }
  | TransportOutcome.netError e => { StatusCode := 0, Latency := lat, Error := some e }
  | TransportOutcome.success code => { StatusCode := code, Latency := lat, Error := none }

/-! ### Counter bookkeeping (stats.go `AddResult`) -/

theorem addResult_totalRequests (s : Stats) (r : Result) :
    (s.AddResult r).TotalRequests = s.TotalRequests + 1 := rfl

theorem addResult_latencies (s : Stats) (r : Result) :
    (s.AddResult r).Latencies = s.Latencies ++ [r.Latency] := rfl

theorem addResult_success_add_failed (s : Stats) (r : Result) :
    (s.AddResult r).SuccessRequests + (s.AddResult r).FailedRequests
      = s.SuccessRequests + s.FailedRequests + 1 := by
  by_cases h : r.Error.isSome ∨ 400 ≤ r.StatusCode <;>
    simp [Stats.AddResult, h] <;> ring

theorem foldl_addResult_total (rs : List Result) (s : Stats) :
    (rs.foldl Stats.AddResult s).TotalRequests
      = s.TotalRequests + (rs.length : Int) := by
  induction rs generalizing s with
  | nil => simp
  | cons r rest ih =>
    rw [List.foldl_cons, ih, addResult_totalRequests]
    push_cast [List.length_cons]
    ring

theorem foldl_addResult_success_add_failed (rs : List Result) (s : Stats) :
    (rs.foldl Stats.AddResult s).SuccessRequests
        + (rs.foldl Stats.AddResult s).FailedRequests
      = s.SuccessRequests + s.FailedRequests + (rs.length : Int) := by
  induction rs generalizing s with
  | nil => simp
  | cons r rest ih =>
    rw [List.foldl_cons, ih, addResult_success_add_failed]
    push_cast [List.length_cons]
    ring

theorem getSummary_counts (s : Stats) :
    s.GetSummary.TotalRequests = s.TotalRequests ∧
    s.GetSummary.SuccessRequests = s.SuccessRequests ∧
    s.GetSummary.FailedRequests = s.FailedRequests ∧
    s.GetSummary.StatusCodeCounts = s.StatusCodeCounts := by
  by_cases h : s.Latencies.length = 0 <;> simp [Stats.GetSummary, h]

/-- C1: starting from a fresh collector, any sequence of `N` calls to
`Stats.AddResult` (with arbitrary results) leaves `TotalRequests = N` and
`SuccessRequests + FailedRequests = TotalRequests`; each single `AddResult`
bumps the total and exactly one of success/failure; and `GetSummary` reports
those same counts. -/
theorem stats_counts_invariant (t0 : Int) (rs : List Result) :
    (∀ (s : Stats) (r : Result),
        (s.AddResult r).TotalRequests = s.TotalRequests + 1 ∧
        (s.AddResult r).SuccessRequests + (s.AddResult r).FailedRequests
          = s.SuccessRequests + s.FailedRequests + 1) ∧
    (rs.foldl Stats.AddResult (NewStats t0)).TotalRequests = (rs.length : Int) ∧
    (rs.foldl Stats.AddResult (NewStats t0)).SuccessRequests
        + (rs.foldl Stats.AddResult (NewStats t0)).FailedRequests
      = (rs.foldl Stats.AddResult (NewStats t0)).TotalRequests ∧
    (rs.foldl Stats.AddResult (NewStats t0)).GetSummary.TotalRequests
      = (rs.length : Int) ∧
    (rs.foldl Stats.AddResult (NewStats t0)).GetSummary.SuccessRequests
        + (rs.foldl Stats.AddResult (NewStats t0)).GetSummary.FailedRequests
      = (rs.length : Int) := by
  refine ⟨fun s r => ⟨addResult_totalRequests s r, addResult_success_add_failed s r⟩,
    ?_, ?_, ?_, ?_⟩
  · rw [foldl_addResult_total]; simp [NewStats]
  · rw [foldl_addResult_total, foldl_addResult_success_add_failed]; simp [NewStats]
  · rw [(getSummary_counts _).1, foldl_addResult_total]; simp [NewStats]
  · rw [(getSummary_counts _).2.1, (getSummary_counts _).2.2.1,
      foldl_addResult_success_add_failed]
    simp [NewStats]

/-! ### Histogram bookkeeping (stats.go `AddResult`) -/

theorem mapSum_mapIncr (m : List (Int × Int)) (k : Int) :
    mapSum (mapIncr m k) = mapSum m + 1 := by
  induction m with
  | nil => simp [mapIncr, mapSum]
  | cons kv rest ih =>
    obtain ⟨k', v⟩ := kv
    by_cases h : k' = k <;> simp [mapIncr, mapSum, h, ih] <;> ring

theorem mapNonneg_mapIncr (m : List (Int × Int)) (k : Int)
    (h : mapNonneg m) : mapNonneg (mapIncr m k) := by
  induction m with
  | nil => intro kv hkv; simp [mapIncr] at hkv; simp [hkv]
  | cons kv' rest ih =>
    obtain ⟨k', v⟩ := kv'
    have hv : 0 ≤ v := h ⟨k', v⟩ (List.mem_cons_self _ _)
    have hrest : mapNonneg rest := fun kv hkv => h kv (List.mem_cons_of_mem _ hkv)
    intro kv hkv
    by_cases hk : k' = k
    · simp [mapIncr, hk] at hkv
      rcases hkv with hkv | hkv
      · simp [hkv]; omega
      · exact hrest kv hkv
    · simp [mapIncr, hk] at hkv
      rcases hkv with hkv | hkv
      · simp [hkv, hv]
      · exact ih hrest kv hkv

theorem addResult_histNonneg (s : Stats) (r : Result)
    (h : mapNonneg s.StatusCodeCounts) :
    mapNonneg (s.AddResult r).StatusCodeCounts := by
  by_cases h1 : r.Error.isSome ∧ r.StatusCode = 0
  · simpa [Stats.AddResult, h1] using mapNonneg_mapIncr _ _ h
  · by_cases h2 : 0 < r.StatusCode
    · simpa [Stats.AddResult, h1, h2] using mapNonneg_mapIncr _ _ h
    · simpa [Stats.AddResult, h1, h2] using h

theorem addResult_histSum (s : Stats) (r : Result)
    (hr : (r.Error.isSome ∧ r.StatusCode = 0) ∨ 0 < r.StatusCode) :
    mapSum (s.AddResult r).StatusCodeCounts = mapSum s.StatusCodeCounts + 1 := by
  rcases hr with h1 | h2
  · simp [Stats.AddResult, h1, mapSum_mapIncr]
  · by_cases h1 : r.Error.isSome ∧ r.StatusCode = 0
    · simp [Stats.AddResult, h1, mapSum_mapIncr]
    · simp [Stats.AddResult, h1, h2, mapSum_mapIncr]

theorem foldl_addResult_histNonneg (rs : List Result) (s : Stats)
    (h : mapNonneg s.StatusCodeCounts) :
    mapNonneg (rs.foldl Stats.AddResult s).StatusCodeCounts := by
  induction rs generalizing s with
  | nil => simpa using h
  | cons r rest ih => exact ih _ (addResult_histNonneg s r h)

theorem foldl_addResult_histSum (rs : List Result) (s : Stats)
    (hr : ∀ r ∈ rs, (r.Error.isSome ∧ r.StatusCode = 0) ∨ 0 < r.StatusCode) :
    mapSum (rs.foldl Stats.AddResult s).StatusCodeCounts
      = mapSum s.StatusCodeCounts + (rs.length : Int) := by
  induction rs generalizing s with
  | nil => simp
  | cons r rest ih =>
    rw [List.foldl_cons, ih _ (fun x hx => hr x (List.mem_cons_of_mem _ hx)),
      addResult_histSum s r (hr r (List.mem_cons_self _ _))]
    push_cast [List.length_cons]
    ring

/-- C2 counterexample: a single `AddResult` with status code 0 and a nil
error increments the total but touches no histogram key, so the histogram
sum (0) differs from `TotalRequests` (1). -/
theorem histogram_sum_cex :
    ¬ (mapSum ((([{ Latency := 7, StatusCode := 0, Error := none }] : List Result).foldl
          Stats.AddResult (NewStats 0)).StatusCodeCounts)
        = (([{ Latency := 7, StatusCode := 0, Error := none }] : List Result).foldl
          Stats.AddResult (NewStats 0)).TotalRequests) := by
  decide

/-- C2 (amended): after any sequence of `AddResult` calls every histogram
value is non-negative, and — provided every added result either carries an
error with the 0 status sentinel or has a positive status code (the code
records nothing for a result with status 0 and no error, or a negative
status) — the sum of the histogram values equals `TotalRequests`. -/
theorem histogram_invariant (t0 : Int) (rs : List Result) :
    mapNonneg (rs.foldl Stats.AddResult (NewStats t0)).StatusCodeCounts ∧
    ((∀ r ∈ rs, (r.Error.isSome ∧ r.StatusCode = 0) ∨ 0 < r.StatusCode) →
      mapSum (rs.foldl Stats.AddResult (NewStats t0)).StatusCodeCounts
        = (rs.foldl Stats.AddResult (NewStats t0)).TotalRequests) := by
  constructor
  · exact foldl_addResult_histNonneg rs _ (by intro kv hkv; simp [NewStats] at hkv)
  · intro hr
    rw [foldl_addResult_histSum rs _ hr, foldl_addResult_total]
    simp [NewStats, mapSum]

/-- C2 witness: the amended invariant instantiated on a concrete two-result
run (one 200 success, one network error recorded under the 0 sentinel). -/
theorem histogram_invariant_witness :
    (∀ r ∈ ([{ Latency := 1, StatusCode := 200, Error := none },
             { Latency := 2, StatusCode := 0, Error := some "connection refused" }] :
            List Result),
        (r.Error.isSome ∧ r.StatusCode = 0) ∨ 0 < r.StatusCode) ∧
    mapSum (([{ Latency := 1, StatusCode := 200, Error := none },
              { Latency := 2, StatusCode := 0, Error := some "connection refused" }] :
             List Result).foldl Stats.AddResult (NewStats 0)).StatusCodeCounts
      = (([{ Latency := 1, StatusCode := 200, Error := none },
           { Latency := 2, StatusCode := 0, Error := some "connection refused" }] :
          List Result).foldl Stats.AddResult (NewStats 0)).TotalRequests :=
  ⟨by decide, (histogram_invariant 0 _).2 (by decide)⟩

/-- C10: `AddResult` on a result with status code 0 and a nil error (the
"should not happen" case) silently counts it as a success — success is
incremented, failure is not — and records it under no histogram key. -/
theorem addResult_zero_status_nil_error (s : Stats) (r : Result)
    (hcode : r.StatusCode = 0) (herr : r.Error = none) :
    (s.AddResult r).SuccessRequests = s.SuccessRequests + 1 ∧
    (s.AddResult r).FailedRequests = s.FailedRequests ∧
    (s.AddResult r).StatusCodeCounts = s.StatusCodeCounts := by
  simp [Stats.AddResult, hcode, herr]

/-- C10 witness: the concrete degenerate result on a fresh collector. -/
theorem addResult_zero_status_nil_error_witness :
    ({ Latency := 3, StatusCode := 0, Error := none } : Result).StatusCode = 0 ∧
    ({ Latency := 3, StatusCode := 0, Error := none } : Result).Error = none ∧
    (((NewStats 0).AddResult { Latency := 3, StatusCode := 0, Error := none }).SuccessRequests
        = (NewStats 0).SuccessRequests + 1 ∧
     ((NewStats 0).AddResult { Latency := 3, StatusCode := 0, Error := none }).FailedRequests
        = (NewStats 0).FailedRequests ∧
     ((NewStats 0).AddResult { Latency := 3, StatusCode := 0, Error := none }).StatusCodeCounts
        = (NewStats 0).StatusCodeCounts) :=
  ⟨rfl, rfl, addResult_zero_status_nil_error (NewStats 0) _ rfl rfl⟩

/-- C5: a collector that received no results, finalized and summarised,
yields all counters, the histogram, and every latency field (min, avg, max,
p90, p95, p99) at zero; the computation is total, so no division-by-zero
fault can occur. -/
theorem empty_collector_summary (t0 t1 : Int) :
    (((NewStats t0).Finalize t1).GetSummary).TotalRequests = 0 ∧
    (((NewStats t0).Finalize t1).GetSummary).SuccessRequests = 0 ∧
    (((NewStats t0).Finalize t1).GetSummary).FailedRequests = 0 ∧
    (((NewStats t0).Finalize t1).GetSummary).StatusCodeCounts = [] ∧
    (((NewStats t0).Finalize t1).GetSummary).MinLatency = 0 ∧
    (((NewStats t0).Finalize t1).GetSummary).AvgLatency = 0 ∧
    (((NewStats t0).Finalize t1).GetSummary).MaxLatency = 0 ∧
    (((NewStats t0).Finalize t1).GetSummary).P90Latency = 0 ∧
    (((NewStats t0).Finalize t1).GetSummary).P95Latency = 0 ∧
    (((NewStats t0).Finalize t1).GetSummary).P99Latency = 0 :=
  ⟨rfl, rfl, rfl, rfl, rfl, rfl, rfl, rfl, rfl, rfl⟩

/-! ### Sorted latency list: basic facts -/

theorem sortLat_length (l : List Int) : (sortLat l).length = l.length :=
  List.length_insertionSort _ l

theorem sortLat_sorted (l : List Int) : List.Sorted (· ≤ ·) (sortLat l) :=
  List.sorted_insertionSort _ l

theorem sortLat_mem {l : List Int} {v : Int} (h : v ∈ sortLat l) : v ∈ l :=
  (List.perm_insertionSort _ l).mem_iff.mp h

theorem sortLat_ne_nil {l : List Int} (h : l ≠ []) : sortLat l ≠ [] := by
  intro hcon
  apply h
  have := sortLat_length l
  rw [hcon] at this
  exact List.length_eq_zero.mp this.symm

theorem getD_mem {s : List Int} {k : Nat} (hk : k < s.length) :
    s.getD k 0 ∈ s := by
  rw [List.getD_eq_getElem s 0 hk]
  exact List.getElem_mem hk

theorem sorted_getD_mono {s : List Int} (hs : List.Sorted (· ≤ ·) s)
    {a b : Nat} (hab : a ≤ b) (hb : b < s.length) :
    s.getD a 0 ≤ s.getD b 0 := by
  have ha : a < s.length := lt_of_le_of_lt hab hb
  rw [List.getD_eq_getElem s 0 ha, List.getD_eq_getElem s 0 hb]
  have h2 : s.get ⟨a, ha⟩ ≤ s.get ⟨b, hb⟩ :=
    hs.rel_get_of_le (Fin.mk_le_mk.mpr hab)
  simpa using h2

/-! ### The min/max/sum loops of `GetSummary` -/

theorem le_foldl_goMax (l : List Int) (a : Int) : a ≤ l.foldl goMax a := by
  induction l generalizing a with
  | nil => exact le_refl a
  | cons x t ih =>
    refine le_trans ?_ (ih (goMax a x))
    simp only [goMax]
    split <;> omega

theorem mem_le_foldl_goMax (l : List Int) (v a : Int) :
    v ∈ l → v ≤ l.foldl goMax a := by
  induction l generalizing a with
  | nil => intro hv; cases hv
  | cons x t ih =>
    intro hv
    rcases List.mem_cons.mp hv with rfl | hv'
    · refine le_trans ?_ (le_foldl_goMax t (goMax a v))
      simp only [goMax]
      split <;> omega
    · exact ih (goMax a x) hv'

theorem foldl_goMin_le (l : List Int) (a : Int) : l.foldl goMin a ≤ a := by
  induction l generalizing a with
  | nil => exact le_refl a
  | cons x t ih =>
    refine le_trans (ih (goMin a x)) ?_
    simp only [goMin]
    split <;> omega

theorem foldl_goMin_le_mem (l : List Int) (v a : Int) :
    v ∈ l → l.foldl goMin a ≤ v := by
  induction l generalizing a with
  | nil => intro hv; cases hv
  | cons x t ih =>
    intro hv
    rcases List.mem_cons.mp hv with rfl | hv'
    · refine le_trans (foldl_goMin_le t (goMin a v)) ?_
      simp only [goMin]
      split <;> omega
    · exact ih (goMin a x) hv'

theorem foldl_add_eq_sum (l : List Int) (c : Int) :
    l.foldl (· + ·) c = c + l.sum := by
  induction l generalizing c with
  | nil => simp
  | cons x t ih =>
    rw [List.foldl_cons, ih, List.sum_cons]
    ring

theorem length_mul_le_sum (l : List Int) (mn : Int) (h : ∀ v ∈ l, mn ≤ v) :
    (l.length : Int) * mn ≤ l.sum := by
  induction l with
  | nil => simp
  | cons x t ih =>
    have hx := h x (List.mem_cons_self _ _)
    have ht := ih (fun v hv => h v (List.mem_cons_of_mem _ hv))
    rw [List.sum_cons]
    push_cast [List.length_cons]
    nlinarith [ht, hx]

theorem sum_le_length_mul (l : List Int) (mx : Int) (h : ∀ v ∈ l, v ≤ mx) :
    l.sum ≤ (l.length : Int) * mx := by
  induction l with
  | nil => simp
  | cons x t ih =>
    have hx := h x (List.mem_cons_self _ _)
    have ht := ih (fun v hv => h v (List.mem_cons_of_mem _ hv))
    rw [List.sum_cons]
    push_cast [List.length_cons]
    nlinarith [ht, hx]

/-- Bounds for Go's truncated integer division (`Int.tdiv`): a value between
`n * mn` and `n * mx` divides (for positive `n`) to a quotient between `mn`
and `mx`. -/
theorem tdiv_bounds (a n mn mx : Int) (hn : 0 < n)
    (h1 : n * mn ≤ a) (h2 : a ≤ n * mx) :
    mn ≤ a.tdiv n ∧ a.tdiv n ≤ mx := by
  rcases le_or_lt 0 a with ha | ha
  · rw [Int.tdiv_eq_ediv ha (le_of_lt hn)]
    constructor
    · rw [Int.le_ediv_iff_mul_le hn]
      nlinarith
    · have hlt : a / n < mx + 1 := by
        rw [Int.ediv_lt_iff_lt_mul hn]
        nlinarith
      omega
  · have h3 : (-a).tdiv n = -(a.tdiv n) := Int.neg_tdiv a n
    have h4 : (-a).tdiv n = (-a) / n := Int.tdiv_eq_ediv (by omega) (le_of_lt hn)
    have hlow : (-a) / n < -mn + 1 := by
      rw [Int.ediv_lt_iff_lt_mul hn]
      nlinarith
    have hhigh : -mx ≤ (-a) / n := by
      rw [Int.le_ediv_iff_mul_le hn]
      nlinarith
    omega

/-! ### Percentile interpolation: bounds and monotonicity -/

theorem floor_toNat_le_of_le {i : ℚ} {n : Nat} (hn : 0 < n)
    (hi1 : i ≤ (n : ℚ) - 1) : (⌊i⌋).toNat ≤ n - 1 := by
  have hfl : ⌊((n : ℚ) - 1)⌋ = (n : ℤ) - 1 := by
    rw [show ((n : ℚ) - 1) = (((n : ℤ) - 1 : ℤ) : ℚ) by push_cast; ring,
      Int.floor_intCast]
  have h1 : ⌊i⌋ ≤ (n : ℤ) - 1 := by
    have h2 := Int.floor_mono hi1
    rwa [hfl] at h2
  omega

theorem floor_toNat_cast {i : ℚ} (hi0 : 0 ≤ i) :
    (((⌊i⌋).toNat : Nat) : ℚ) = ((⌊i⌋ : ℤ) : ℚ) := by
  exact_mod_cast Int.toNat_of_nonneg (Int.floor_nonneg.mpr hi0)

theorem index_sub_floor_nonneg {i : ℚ} (hi0 : 0 ≤ i) :
    0 ≤ i - ((⌊i⌋).toNat : ℚ) := by
  rw [floor_toNat_cast hi0]
  linarith [Int.floor_le i]

theorem index_sub_floor_lt_one {i : ℚ} (hi0 : 0 ≤ i) :
    i - ((⌊i⌋).toNat : ℚ) < 1 := by
  rw [floor_toNat_cast hi0]
  linarith [Int.lt_floor_add_one i]

theorem interpVal_mono {s : List Int} (hs : List.Sorted (· ≤ ·) s) (hne : s ≠ [])
    {i j : ℚ} (hi0 : 0 ≤ i) (hij : i ≤ j) (hj1 : j ≤ (s.length : ℚ) - 1) :
    interpVal s i ≤ interpVal s j := by
  have hn : 0 < s.length := List.length_pos.mpr hne
  have hj0 : 0 ≤ j := le_trans hi0 hij
  have hi1 : i ≤ (s.length : ℚ) - 1 := le_trans hij hj1
  have hki : (⌊i⌋).toNat ≤ s.length - 1 := floor_toNat_le_of_le hn hi1
  have hkj : (⌊j⌋).toNat ≤ s.length - 1 := floor_toNat_le_of_le hn hj1
  have hkj_lt : (⌊j⌋).toNat < s.length := by omega
  have hmini_lt : min ((⌊i⌋).toNat + 1) (s.length - 1) < s.length := by omega
  have hminj_lt : min ((⌊j⌋).toNat + 1) (s.length - 1) < s.length := by omega
  have hfi0 := index_sub_floor_nonneg hi0
  have hfi1 := index_sub_floor_lt_one hi0
  have hfj0 := index_sub_floor_nonneg hj0
  have hab_i : s.getD (⌊i⌋).toNat 0
      ≤ s.getD (min ((⌊i⌋).toNat + 1) (s.length - 1)) 0 :=
    sorted_getD_mono hs (by omega) hmini_lt
  have hab_j : s.getD (⌊j⌋).toNat 0
      ≤ s.getD (min ((⌊j⌋).toNat + 1) (s.length - 1)) 0 :=
    sorted_getD_mono hs (by omega) hminj_lt
  have hkij : (⌊i⌋).toNat ≤ (⌊j⌋).toNat := by
    have := Int.floor_mono hij
    omega
  rcases eq_or_lt_of_le hkij with heq | hlt
  · unfold interpVal
    rw [← heq]
    have hstep : i - ((⌊i⌋).toNat : ℚ) ≤ j - ((⌊i⌋).toNat : ℚ) := by linarith
    have hba : (0:ℚ) ≤ ((s.getD (min ((⌊i⌋).toNat + 1) (s.length - 1)) 0 : Int) : ℚ)
        - ((s.getD (⌊i⌋).toNat 0 : Int) : ℚ) := by
      have := sub_nonneg.mpr hab_i
      exact_mod_cast this
    linarith [mul_le_mul_of_nonneg_right hstep hba]
  · have h1 : interpVal s i
        ≤ ((s.getD (min ((⌊i⌋).toNat + 1) (s.length - 1)) 0 : Int) : ℚ) := by
      unfold interpVal
      have hba : (0:ℚ) ≤ ((s.getD (min ((⌊i⌋).toNat + 1) (s.length - 1)) 0 : Int) : ℚ)
          - ((s.getD (⌊i⌋).toNat 0 : Int) : ℚ) := by
        have := sub_nonneg.mpr hab_i
        exact_mod_cast this
      nlinarith [mul_nonneg (by linarith : (0:ℚ) ≤ 1 - (i - ((⌊i⌋).toNat : ℚ))) hba]
    have h2 : s.getD (min ((⌊i⌋).toNat + 1) (s.length - 1)) 0 ≤ s.getD (⌊j⌋).toNat 0 :=
      sorted_getD_mono hs (by omega) hkj_lt
    have h3 : ((s.getD (⌊j⌋).toNat 0 : Int) : ℚ) ≤ interpVal s j := by
      unfold interpVal
      have hba : (0:ℚ) ≤ ((s.getD (min ((⌊j⌋).toNat + 1) (s.length - 1)) 0 : Int) : ℚ)
          - ((s.getD (⌊j⌋).toNat 0 : Int) : ℚ) := by
        have := sub_nonneg.mpr hab_j
        exact_mod_cast this
      nlinarith [mul_nonneg hfj0 hba]
    have h2q : ((s.getD (min ((⌊i⌋).toNat + 1) (s.length - 1)) 0 : Int) : ℚ)
        ≤ ((s.getD (⌊j⌋).toNat 0 : Int) : ℚ) := by exact_mod_cast h2
    linarith

theorem interpVal_le_of_mem_le {s : List Int} (hne : s ≠ [])
    {i : ℚ} (hi0 : 0 ≤ i) (hi1 : i ≤ (s.length : ℚ) - 1)
    {mx : Int} (hmx : ∀ v ∈ s, v ≤ mx) : interpVal s i ≤ (mx : ℚ) := by
  have hn : 0 < s.length := List.length_pos.mpr hne
  have hki : (⌊i⌋).toNat ≤ s.length - 1 := floor_toNat_le_of_le hn hi1
  have hki_lt : (⌊i⌋).toNat < s.length := by omega
  have hmin_lt : min ((⌊i⌋).toNat + 1) (s.length - 1) < s.length := by omega
  have hA : s.getD (⌊i⌋).toNat 0 ≤ mx := hmx _ (getD_mem hki_lt)
  have hB : s.getD (min ((⌊i⌋).toNat + 1) (s.length - 1)) 0 ≤ mx :=
    hmx _ (getD_mem hmin_lt)
  have hf0 := index_sub_floor_nonneg hi0
  have hf1 := index_sub_floor_lt_one hi0
  have hAq : ((s.getD (⌊i⌋).toNat 0 : Int) : ℚ) ≤ (mx : ℚ) := by exact_mod_cast hA
  have hBq : ((s.getD (min ((⌊i⌋).toNat + 1) (s.length - 1)) 0 : Int) : ℚ)
      ≤ (mx : ℚ) := by exact_mod_cast hB
  unfold interpVal
  nlinarith [mul_nonneg (by linarith : (0:ℚ) ≤ 1 - (i - ((⌊i⌋).toNat : ℚ)))
      (by linarith : (0:ℚ) ≤ (mx : ℚ) - ((s.getD (⌊i⌋).toNat 0 : Int) : ℚ)),
    mul_nonneg hf0
      (by linarith : (0:ℚ)
        ≤ (mx : ℚ) - ((s.getD (min ((⌊i⌋).toNat + 1) (s.length - 1)) 0 : Int) : ℚ))]

theorem percentile_index_nonneg (n : Nat) (hn : 0 < n) {p : ℚ} (hp0 : 0 ≤ p) :
    0 ≤ p / 100 * ((n : ℚ) - 1) := by
  have h1 : (1:ℚ) ≤ (n : ℚ) := by exact_mod_cast hn
  have h2 : (0:ℚ) ≤ p / 100 := div_nonneg hp0 (by norm_num)
  nlinarith

theorem percentile_index_le (n : Nat) (hn : 0 < n) {p : ℚ}
    (hp0 : 0 ≤ p) (hp1 : p ≤ 100) :
    p / 100 * ((n : ℚ) - 1) ≤ (n : ℚ) - 1 := by
  have h1 : (1:ℚ) ≤ (n : ℚ) := by exact_mod_cast hn
  have h2 : p / 100 ≤ 1 := by
    rw [div_le_one (by norm_num : (0:ℚ) < 100)]
    exact hp1
  have h3 : (0:ℚ) ≤ p / 100 := div_nonneg hp0 (by norm_num)
  nlinarith

theorem percentile_mono (l : List Int) (hne : l ≠ []) {p q : ℚ}
    (hp0 : 0 ≤ p) (hpq : p ≤ q) (hq1 : q ≤ 100) :
    Percentile l p ≤ Percentile l q := by
  cases l with
  | nil => exact absurd rfl hne
  | cons x xs =>
    show interpVal (sortLat (x :: xs)) (p / 100 * (((x :: xs).length : ℚ) - 1))
        ≤ interpVal (sortLat (x :: xs)) (q / 100 * (((x :: xs).length : ℚ) - 1))
    have hn : 0 < (x :: xs).length := by simp
    have hq0 : 0 ≤ q := le_trans hp0 hpq
    have hii : p / 100 * (((x :: xs).length : ℚ) - 1)
        ≤ q / 100 * (((x :: xs).length : ℚ) - 1) := by
      have h1 : (1:ℚ) ≤ ((x :: xs).length : ℚ) := by exact_mod_cast hn
      have hdiv : p / 100 ≤ q / 100 := by linarith
      nlinarith
    refine interpVal_mono (sortLat_sorted _) (sortLat_ne_nil (by simp))
      (percentile_index_nonneg _ hn hp0) hii ?_
    rw [sortLat_length]
    exact percentile_index_le _ hn hq0 hq1

theorem percentile_le_of_mem_le (l : List Int) (hne : l ≠ []) {p : ℚ}
    (hp0 : 0 ≤ p) (hp1 : p ≤ 100) {mx : Int} (hmx : ∀ v ∈ l, v ≤ mx) :
    Percentile l p ≤ (mx : ℚ) := by
  cases l with
  | nil => exact absurd rfl hne
  | cons x xs =>
    show interpVal (sortLat (x :: xs)) (p / 100 * (((x :: xs).length : ℚ) - 1))
        ≤ (mx : ℚ)
    have hn : 0 < (x :: xs).length := by simp
    refine interpVal_le_of_mem_le (sortLat_ne_nil (by simp))
      (percentile_index_nonneg _ hn hp0) ?_ (fun v hv => hmx v (sortLat_mem hv))
    rw [sortLat_length]
    exact percentile_index_le _ hn hp0 hp1

/-- C3: the `Percentile` function used at the p90/p95/p99 call sites of
`GetSummary` agrees, for every non-empty latency list and percentile between
0 and 100, with the reference linear-interpolation definition: sort the
sample, place the value at index `p/100 * (n-1)`, and blend the two
bracketing sorted samples `s⌊i⌋` and `s⌈i⌉` by the fractional part of the
index. -/
theorem percentile_eq_ref (latencies : List Int) (p : ℚ)
    (hne : latencies ≠ []) (hp0 : 0 ≤ p) (hp1 : p ≤ 100) :
    Percentile latencies p = refPercentile latencies p := by
  cases latencies with
  | nil => exact absurd rfl hne
  | cons x xs =>
    simp only [Percentile, refPercentile, sortLat_length]
    set s := sortLat (x :: xs) with hsdef
    set i := p / 100 * (((x :: xs).length : ℚ) - 1) with hidef
    have hn : 0 < (x :: xs).length := by simp
    have hslen : s.length = (x :: xs).length := sortLat_length _
    have hi0 : 0 ≤ i := percentile_index_nonneg _ hn hp0
    have hi1 : i ≤ ((x :: xs).length : ℚ) - 1 := percentile_index_le _ hn hp0 hp1
    have hfl0 : 0 ≤ ⌊i⌋ := Int.floor_nonneg.mpr hi0
    have hcast : (((⌊i⌋).toNat : Nat) : ℚ) = ((⌊i⌋ : ℤ) : ℚ) := floor_toNat_cast hi0
    have hfract : Int.fract i = i - ((⌊i⌋).toNat : ℚ) := by
      simp only [Int.fract]
      rw [hcast]
    by_cases hf : Int.fract i = 0
    · have hzero : i - ((⌊i⌋).toNat : ℚ) = 0 := by rw [← hfract]; exact hf
      simp only [interpVal]
      rw [hf, hzero]
      ring
    · have hflt : ((⌊i⌋ : ℤ) : ℚ) < i := by
        rcases lt_or_eq_of_le (Int.floor_le i) with h | h
        · exact h
        · exfalso
          apply hf
          rw [← h]
          exact Int.fract_intCast _
      have hceil : ⌈i⌉ = ⌊i⌋ + 1 := by
        have h1 : ⌊i⌋ < ⌈i⌉ := by
          rw [Int.lt_ceil]
          exact hflt
        have h2 : ⌈i⌉ ≤ ⌊i⌋ + 1 := Int.ceil_le_floor_add_one i
        omega
      have hstrict : i < ((x :: xs).length : ℚ) - 1 := by
        rcases lt_or_eq_of_le hi1 with h | h
        · exact h
        · exfalso
          apply hf
          rw [h, show (((x :: xs).length : ℚ) - 1)
              = ((((x :: xs).length : ℤ) - 1 : ℤ) : ℚ) by push_cast; ring]
          exact Int.fract_intCast _
      have hfloor_lt : ⌊i⌋ < ((x :: xs).length : ℤ) - 1 := by
        rw [Int.floor_lt, show ((((x :: xs).length : ℤ) - 1 : ℤ) : ℚ)
            = (((x :: xs).length : ℚ) - 1) by push_cast; ring]
        exact hstrict
      have hmin : min ((⌊i⌋).toNat + 1) (s.length - 1) = (⌊i⌋).toNat + 1 := by
        rw [hslen]
        omega
      have hceilNat : (⌈i⌉).toNat = (⌊i⌋).toNat + 1 := by
        rw [hceil]
        omega
      simp only [interpVal, hmin, hceilNat, hfract]
      ring

/-- C3 witness: a concrete three-element latency list at p95. -/
theorem percentile_eq_ref_witness :
    ([5, 1, 4] : List Int) ≠ [] ∧ (0:ℚ) ≤ 95 ∧ (95:ℚ) ≤ 100 ∧
    Percentile [5, 1, 4] 95 = refPercentile [5, 1, 4] 95 :=
  ⟨by decide, by norm_num, by norm_num,
    percentile_eq_ref [5, 1, 4] 95 (by decide) (by norm_num) (by norm_num)⟩

/-- C4: for a collector holding a non-empty latency collection, `GetSummary`
satisfies `p90 ≤ p95 ≤ p99 ≤ max` and `min ≤ avg ≤ max`, where avg is the
single-scan sum divided (truncated integer division) by the count. -/
theorem summary_latency_order (s : Stats) (hne : s.Latencies ≠ []) :
    s.GetSummary.P90Latency ≤ s.GetSummary.P95Latency ∧
    s.GetSummary.P95Latency ≤ s.GetSummary.P99Latency ∧
    s.GetSummary.P99Latency ≤ (s.GetSummary.MaxLatency : ℚ) ∧
    s.GetSummary.MinLatency ≤ s.GetSummary.AvgLatency ∧
    s.GetSummary.AvgLatency ≤ s.GetSummary.MaxLatency := by
  have hlen : ¬ s.Latencies.length = 0 := by
    simpa [List.length_eq_zero] using hne
  have hmax : ∀ v ∈ s.Latencies,
      v ≤ s.Latencies.foldl goMax (s.Latencies.getD 0 0) :=
    fun v hv => mem_le_foldl_goMax _ v _ hv
  have hmin : ∀ v ∈ s.Latencies,
      s.Latencies.foldl goMin (s.Latencies.getD 0 0) ≤ v :=
    fun v hv => foldl_goMin_le_mem _ v _ hv
  have hlenpos : (0:Int) < (s.Latencies.length : Int) := by
    have h := List.length_pos.mpr hne
    exact_mod_cast h
  have hsum : s.Latencies.foldl (· + ·) 0 = s.Latencies.sum := by
    rw [foldl_add_eq_sum]
    ring
  have hdivb := tdiv_bounds (s.Latencies.foldl (· + ·) 0) (s.Latencies.length : Int)
      (s.Latencies.foldl goMin (s.Latencies.getD 0 0))
      (s.Latencies.foldl goMax (s.Latencies.getD 0 0)) hlenpos
      (by rw [hsum]; exact length_mul_le_sum _ _ hmin)
      (by rw [hsum]; exact sum_le_length_mul _ _ hmax)
  simp only [Stats.GetSummary, hlen, if_false]
  refine ⟨?_, ?_, ?_, ?_, ?_⟩
  · exact percentile_mono _ hne (by norm_num) (by norm_num) (by norm_num)
  · exact percentile_mono _ hne (by norm_num) (by norm_num) (by norm_num)
  · exact percentile_le_of_mem_le _ hne (by norm_num) (by norm_num) hmax
  · exact hdivb.1
  · exact hdivb.2

/-- C4 witness: a concrete collector holding latencies [3, 1, 2]. -/
theorem summary_latency_order_witness :
    (⟨3, 3, 0, [], [3, 1, 2], 0, 0⟩ : Stats).Latencies ≠ [] ∧
    ((⟨3, 3, 0, [], [3, 1, 2], 0, 0⟩ : Stats).GetSummary.P90Latency
        ≤ (⟨3, 3, 0, [], [3, 1, 2], 0, 0⟩ : Stats).GetSummary.P95Latency ∧
      (⟨3, 3, 0, [], [3, 1, 2], 0, 0⟩ : Stats).GetSummary.P95Latency
        ≤ (⟨3, 3, 0, [], [3, 1, 2], 0, 0⟩ : Stats).GetSummary.P99Latency ∧
      (⟨3, 3, 0, [], [3, 1, 2], 0, 0⟩ : Stats).GetSummary.P99Latency
        ≤ ((⟨3, 3, 0, [], [3, 1, 2], 0, 0⟩ : Stats).GetSummary.MaxLatency : ℚ) ∧
      (⟨3, 3, 0, [], [3, 1, 2], 0, 0⟩ : Stats).GetSummary.MinLatency
        ≤ (⟨3, 3, 0, [], [3, 1, 2], 0, 0⟩ : Stats).GetSummary.AvgLatency ∧
      (⟨3, 3, 0, [], [3, 1, 2], 0, 0⟩ : Stats).GetSummary.AvgLatency
        ≤ (⟨3, 3, 0, [], [3, 1, 2], 0, 0⟩ : Stats).GetSummary.MaxLatency) :=
  ⟨by decide, summary_latency_order _ (by decide)⟩

/-! ### Round-robin endpoint selection (urlrotator.go) -/

theorem next_state_multi (r : URLRotator) (h2 : 2 ≤ r.urls.length) :
    r.Next = ({ r with idx := r.idx + 1 },
      r.urls.getD (r.idx % r.urls.length) "") := by
  have h0 : ¬ r.urls.length = 0 := by omega
  have h1 : ¬ r.urls.length = 1 := by omega
  simp [URLRotator.Next, h0, h1]

theorem next_state_one (r : URLRotator) (h1 : r.urls.length = 1) :
    r.Next = (r, r.urls.getD 0 "") := by
  have h0 : ¬ r.urls.length = 0 := by omega
  simp [URLRotator.Next, h0, h1]

theorem runNext_outputs (urls : List String) (hne : urls ≠ []) (start n : Nat) :
    (runNext { urls := urls, idx := start } n).2
      = (List.range n).map (fun t => urls.getD ((start + t) % urls.length) "") := by
  induction n generalizing start with
  | zero => simp [runNext]
  | succ n ih =>
    have hlen : 0 < urls.length := List.length_pos.mpr hne
    rcases Nat.lt_or_ge urls.length 2 with hsmall | hbig
    · have h1 : urls.length = 1 := by omega
      have hnext := next_state_one { urls := urls, idx := start } (by simpa using h1)
      simp only [runNext, hnext]
      rw [ih start, List.range_succ_eq_map, List.map_cons, List.map_map]
      refine congrArg₂ List.cons ?_ ?_
      · simp [h1, Nat.mod_one]
      · refine List.map_congr_left ?_
        intro t _
        simp only [Function.comp_apply]
        simp [h1, Nat.mod_one]
    · have hnext := next_state_multi { urls := urls, idx := start } (by simpa using hbig)
      simp only [runNext, hnext]
      rw [ih (start + 1), List.range_succ_eq_map, List.map_cons, List.map_map]
      refine congrArg₂ List.cons ?_ ?_
      · simp
      · refine List.map_congr_left ?_
        intro t _
        simp only [Function.comp_apply]
        have h' : start + 1 + t = start + Nat.succ t := by omega
        rw [h']

/-- C6 counterexample: over the non-empty URL list `[""]` (one configured
URL that happens to be the empty string) the rotator is constructed and its
first `Next()` returns the empty string, so "never returns an empty string
for a non-empty input list" fails as stated. -/
theorem urlrotator_empty_string_cex :
    NewURLRotator [""] = some { urls := [""], idx := 0 } ∧
    (URLRotator.Next { urls := [""], idx := 0 }).2 = "" := ⟨rfl, rfl⟩

/-- C6 (amended): for a rotator over a non-empty list of K URLs, the k-th
sequential call to `Next()` (counting from 0) returns `urls[k % K]` — round
robin starting at the first element, and with K = 1 always that single URL —
and every returned string is an element of the input list (hence non-empty
whenever every configured URL is a non-empty string). -/
theorem urlrotator_round_robin (urls : List String) (hne : urls ≠ []) (n : Nat) :
    NewURLRotator urls = some { urls := urls, idx := 0 } ∧
    (runNext { urls := urls, idx := 0 } n).2
      = (List.range n).map (fun t => urls.getD (t % urls.length) "") ∧
    ∀ u ∈ (runNext { urls := urls, idx := 0 } n).2, u ∈ urls := by
  have hlen : ¬ urls.length = 0 := by simpa [List.length_eq_zero] using hne
  refine ⟨by simp [NewURLRotator, hlen], ?_, ?_⟩
  · have h := runNext_outputs urls hne 0 n
    simpa using h
  · intro u hu
    rw [runNext_outputs urls hne 0 n] at hu
    simp only [List.mem_map] at hu
    obtain ⟨t, _, ht⟩ := hu
    rw [← ht]
    have hmod : (0 + t) % urls.length < urls.length :=
      Nat.mod_lt _ (List.length_pos.mpr hne)
    rw [List.getD_eq_getElem urls "" hmod]
    exact List.getElem_mem hmod

/-- C6 witness: three endpoints A, B, C and nine sequential calls produce
A,B,C,A,B,C,A,B,C. -/
theorem urlrotator_round_robin_witness :
    (["A", "B", "C"] : List String) ≠ [] ∧
    (runNext { urls := ["A", "B", "C"], idx := 0 } 9).2
      = ["A", "B", "C", "A", "B", "C", "A", "B", "C"] := by
  refine ⟨by decide, ?_⟩
  rw [(urlrotator_round_robin ["A", "B", "C"] (by decide) 9).2.1]
  rfl

/-! ### Run validation (runner.go) -/

/-- C7 counterexample: a configuration with a non-empty URL list and
concurrency 0 is not rejected — `RunWithStatsAndChannel` completes the run
(a normal return carrying a summary, not an error) with zero workers
started, refuting "returns an error before any Worker starts" for
non-positive concurrency. -/
theorem run_zero_concurrency_cex :
    runOk (RunWithStatsAndChannel
        { URLs := ["http://a"], Concurrency := 0, Duration := 10,
          Method := "GET", Body := "", Headers := [], MaxRPS := 0 }
        [] 0 10) = true ∧
    workersStarted
        { URLs := ["http://a"], Concurrency := 0, Duration := 10,
          Method := "GET", Body := "", Headers := [], MaxRPS := 0 } = 0 :=
  ⟨rfl, rfl⟩

/-- C7 (amended): the core run treats only an empty endpoint list as a fatal
configuration error, returning an error before any worker starts; it never
validates concurrency. With concurrency exactly 0 the run proceeds, starts
zero workers, and still produces a summary; with negative concurrency the
run faults at run time — `make(chan Result, config.Concurrency*10)` panics
on the negative buffer size before any worker starts, and no summary is
produced. (The CLI layer, outside the core, rejects `concurrency ≤ 0`.) -/
theorem run_validation (config : Config) (delivered : List Result) (t0 t1 : Int) :
    (config.URLs.length = 0 →
      RunWithStatsAndChannel config delivered t0 t1
          = RunOutcome.err "at least one URL is required" ∧
        workersStarted config = 0) ∧
    (config.URLs.length ≠ 0 → config.Concurrency < 0 →
      RunWithStatsAndChannel config delivered t0 t1
          = RunOutcome.fault "makechan: size out of range" ∧
        workersStarted config = 0) ∧
    (config.URLs.length ≠ 0 → 0 ≤ config.Concurrency →
      runOk (RunWithStatsAndChannel config delivered t0 t1) = true ∧
        workersStarted config = config.Concurrency.toNat) := by
  refine ⟨?_, ?_, ?_⟩
  · intro h
    simp [RunWithStatsAndChannel, workersStarted, h]
  · intro h hneg
    constructor
    · simp [RunWithStatsAndChannel, h, hneg]
    · simp only [workersStarted, if_neg h]
      omega
  · intro h hpos
    have hlt : ¬ config.Concurrency < 0 := by omega
    exact ⟨by simp [RunWithStatsAndChannel, runOk, h, hlt],
      by simp [workersStarted, h]⟩

/-- C7 witness: all three behaviours on concrete configurations — the
empty-URL error, the negative-concurrency fault, and a normal run with four
workers. -/
theorem run_validation_witness :
    (RunWithStatsAndChannel
        { URLs := [], Concurrency := 5, Duration := 10, Method := "GET",
          Body := "", Headers := [], MaxRPS := 0 } [] 0 10
        = RunOutcome.err "at least one URL is required" ∧
      workersStarted
        { URLs := [], Concurrency := 5, Duration := 10, Method := "GET",
          Body := "", Headers := [], MaxRPS := 0 } = 0) ∧
    (RunWithStatsAndChannel
        { URLs := ["http://a"], Concurrency := -3, Duration := 10,
          Method := "GET", Body := "", Headers := [], MaxRPS := 0 } [] 0 10
        = RunOutcome.fault "makechan: size out of range" ∧
      workersStarted
        { URLs := ["http://a"], Concurrency := -3, Duration := 10,
          Method := "GET", Body := "", Headers := [], MaxRPS := 0 } = 0) ∧
    (runOk (RunWithStatsAndChannel
        { URLs := ["http://a"], Concurrency := 4, Duration := 10,
          Method := "GET", Body := "", Headers := [], MaxRPS := 0 } [] 0 10) = true ∧
      workersStarted
        { URLs := ["http://a"], Concurrency := 4, Duration := 10,
          Method := "GET", Body := "", Headers := [], MaxRPS := 0 } = 4) := by
  refine ⟨(run_validation _ [] 0 10).1 rfl,
    (run_validation _ [] 0 10).2.1 (by decide) (by decide), ?_⟩
  have h := (run_validation
      { URLs := ["http://a"], Concurrency := 4, Duration := 10,
        Method := "GET", Body := "", Headers := [], MaxRPS := 0 }
      [] 0 10).2.2 (by decide) (by decide)
  exact ⟨h.1, by rw [h.2]; rfl⟩

/-! ### Worker delivery step under cancellation (worker.go) -/

/-- C8 counterexample: when the cancellation has fired and the buffered
results channel can still accept a value, both communications of the
worker's final `select` are ready, and Go's uniform pseudo-random choice may
pick the send — so an execution exists in which the worker delivers the
result of the abandoned call after cancellation, refuting "never delivers". -/
theorem delivery_after_cancel_cex :
    ¬ (∀ (sendReady : Bool) (o : DeliveryOutcome),
        deliveryStep true sendReady o → o ≠ DeliveryOutcome.sent) := by
  intro hclaim
  exact hclaim true DeliveryOutcome.sent (deliveryStep.sendOnReady true) rfl

/-- C8 (amended): once the cancellation has fired, the worker's delivery
select aborts without delivering whenever the channel send is not
immediately ready; a delivery can happen only when the send is ready (in
which case the select chooses nondeterministically between delivering once
and aborting). -/
theorem delivery_after_cancel (ctxDone sendReady : Bool) (o : DeliveryOutcome) :
    (deliveryStep true false o → o = DeliveryOutcome.aborted) ∧
    (deliveryStep ctxDone sendReady DeliveryOutcome.sent → sendReady = true) := by
  constructor
  · intro h
    cases h
    rfl
  · intro h
    cases h
    rfl

/-- C8 witness: both parts of the amended statement at concrete steps. -/
theorem delivery_after_cancel_witness :
    DeliveryOutcome.aborted = DeliveryOutcome.aborted ∧ (true : Bool) = true :=
  ⟨(delivery_after_cancel true false DeliveryOutcome.aborted).1
      (deliveryStep.abortOnDone false),
    (delivery_after_cancel true true DeliveryOutcome.sent).2
      (deliveryStep.sendOnReady true)⟩

/-! ### Error/status pairing in the HTTP executor (client.go) -/

/-- C9: `Client.Do` never pairs a non-nil error with a positive status code:
a response with an error has status code 0, and a response without an error
carries exactly the status code the transport received — positive, given the
transport's guarantee (Go's HTTP parser only yields three-digit statuses)
supplied as the hypothesis. -/
theorem do_error_status_pairing (req : Request) (outcome : TransportOutcome)
    (lat : Int)
    (hvalid : ∀ code : Int, outcome = TransportOutcome.success code → 0 < code) :
    ((Httpclient.Do req outcome lat).Error.isSome →
      (Httpclient.Do req outcome lat).StatusCode = 0) ∧
    ((Httpclient.Do req outcome lat).Error = none →
      0 < (Httpclient.Do req outcome lat).StatusCode) ∧
    (∀ code : Int, outcome = TransportOutcome.success code →
      (Httpclient.Do req outcome lat).Error = none ∧
      (Httpclient.Do req outcome lat).StatusCode = code) := by
  cases outcome with
  | reqError e =>
    refine ⟨fun _ => rfl, ?_, ?_⟩
    · intro hc
      exact absurd hc (by simp [Httpclient.Do])
    · intro code hcode
      exact TransportOutcome.noConfusion hcode
  | netError e =>
    refine ⟨fun _ => rfl, ?_, ?_⟩
    · intro hc
      exact absurd hc (by simp [Httpclient.Do])
    · intro code hcode
      exact TransportOutcome.noConfusion hcode
  | success code0 =>
    have hpos := hvalid code0 rfl
    refine ⟨?_, fun _ => hpos, ?_⟩
    · intro hc
      exact absurd hc (by simp [Httpclient.Do])
    · intro code hcode
      injection hcode with h2
      subst h2
      exact ⟨rfl, rfl⟩

/-- C9 witness: a successful 200 response through `Client.Do`. -/
theorem do_error_status_pairing_witness :
    (Httpclient.Do { Method := "GET", URL := "http://a", Body := "", Headers := [] }
        (TransportOutcome.success 200) 5).Error = none ∧
    (Httpclient.Do { Method := "GET", URL := "http://a", Body := "", Headers := [] }
        (TransportOutcome.success 200) 5).StatusCode = 200 :=
  (do_error_status_pairing _ _ 5
      (fun code h => by injection h with h2; omega)).2.2 200 rfl
